import Mathlib

/-!
Verification of the streaming tar-prefix-stripping transform in
`lib/github_fetch/github_fetch.go` (package `githubfetch`).

The core of the program is `tarPrefixStripper`: it reads a gzip-compressed
tar stream, drops the `pax_global_header` pseudo-entry and the bare
top-level directory entry, rejects absolute entry names, removes the first
slash-delimited segment of every remaining entry name, filters the renamed
entries against docker-ignore exclusion patterns, and re-emits the
surviving entries in order.

We embed the entry-level logic shallowly: a tar entry becomes a `Header`
record; the decoded source stream becomes a `List Header` together with an
optional terminal read error; the external pattern matcher
(`fileutils.Matches`) becomes a function parameter; the gzip/tar byte
codecs and the pipe plumbing are abstracted away, keeping the entry
sequence, the error propagation and the close bookkeeping of
`startStrippingPipe`.
-/

set_option autoImplicit false

deriving instance DecidableEq for Except

namespace GithubFetch

/-- One tar archive entry as the transform sees it: the header name and the
payload bytes that `io.Copy` would forward. -/
structure Header where
  name : String
  payload : List Nat
deriving DecidableEq, Repr

/-- Go `path.IsAbs`: a slash-path is absolute when it is nonempty and its
first byte is `/`. -/
def pathIsAbs (p : String) : Bool :=
  match p.data with
  | [] => false
  | c :: _ => c = '/'

/-- Go `strings.Split(s, "/")`: the slash-separated components of `s`,
empty components preserved (`""` splits to `[""]`, `"a//b"` to
`["a", "", "b"]`). -/
def splitOnSlash (s : String) : List String :=
  (s.data.splitOn '/').map List.asString

/-- Go `strings.Join(parts, "/")`: the components joined with a single
slash between consecutive ones (`[]` joins to `""`). -/
def joinWithSlash : List String → String
  | [] => ""
  | [s] => s
  | s :: rest => s ++ "/" ++ joinWithSlash rest

/-- The external docker-ignore pattern matcher (`fileutils.Matches`): given
a file name and the exclusion patterns, it reports whether the name matches,
or fails (e.g. on a malformed pattern). -/
abbrev Matcher : Type := String → List String → Except String Bool

/-- The error message produced for an absolute entry name. -/
def absPathError (n : String) : String :=
  "archive contains absolute path: " ++ n

/-- The error message produced when the pattern matcher fails on a name. -/
def matchErrorMsg (n : String) : String :=
  "error matching file name to docker ignored files: " ++ n

/-- `tarPrefixStripper.shouldSkipDockerIgnoredFile`: ask the matcher whether
the (already renamed) header name matches the exclusion patterns, replacing
a matcher failure by a descriptive error. -/
def shouldSkipDockerIgnoredFile (m : Matcher) (excludes : List String)
    (h : Header) : Except String Bool :=
  match m h.name excludes with
  | .error _ => .error (matchErrorMsg h.name)
  | .ok b => .ok b

/-- `tarPrefixStripper.processHeader`: decide whether the entry is skipped
(`.ok (true, _)`), emitted under its new name (`.ok (false, h2)`), or fatal
(`.error e`).  The Go function mutates `h.Name` in place; here the renamed
header is returned. -/
def processHeader (m : Matcher) (excludes : List String) (h : Header) :
    Except String (Bool × Header) :=
  if h.name = "pax_global_header" then
    .ok (true, h)
  else if pathIsAbs h.name then
    .error (absPathError h.name)
  else
    let spath := splitOnSlash h.name
    if spath.length = 2 && spath.getD 1 "" = "" then
      .ok (true, h)
    else
      let h2 : Header := { h with name := joinWithSlash (spath.drop 1) }
      match shouldSkipDockerIgnoredFile m excludes h2 with
      | .error e => .error e
      | .ok skip => .ok (skip, h2)

/-- Outcome of the entry loop of `startStrippingPipe`: the headers written
to the output tar stream, in order, and the error handed to
`closeFunc` (`none` models `closeFunc(nil)` at EOF). -/
structure StripResult where
  emitted : List Header
  err : Option String
deriving DecidableEq, Repr

/-- The entry loop of `tarPrefixStripper.startStrippingPipe`, after the
gzip reader has been opened: the decoded source entries are `entries`, and
`terr` is what `tarball.Next()` yields after them (`none` for a clean
`io.EOF`, `some e` for a mid-stream read error).  Skipped entries are
dropped, fatal errors stop the loop, surviving entries are written renamed,
in order. -/
def startStrippingPipe (m : Matcher) (excludes : List String) :
    List Header → Option String → StripResult
  | [], terr => { emitted := [], err := terr }
  | h :: rest, terr =>
    match processHeader m excludes h with
    | .error e => { emitted := [], err := some e }
    | .ok (true, _) => startStrippingPipe m excludes rest terr
    | .ok (false, h2) =>
      let r := startStrippingPipe m excludes rest terr
      { emitted := h2 :: r.emitted, err := r.err }

/-- A matcher that never matches: `fileutils.Matches` restricted to inputs
on which it reports no match. -/
def alwaysFalseMatcher : Matcher := fun _ _ => .ok false

/-- A matcher that matches exactly the names ending in `.log` (the behavior
of `fileutils.Matches` under the single pattern set used in the spec's
`*.log` example). -/
def logSuffixMatcher : Matcher := fun n _ => .ok (".log".data.isSuffixOf n.data)

/-- Removing the first slash-delimited segment of a name, as the rename in
`processHeader` does: split on `/`, drop the first segment, rejoin. -/
def stripFirstSegment (n : String) : String :=
  joinWithSlash ((splitOnSlash n).drop 1)

/-- The rename applied to every emitted header. -/
def renameHeader (h : Header) : Header :=
  { h with name := stripFirstSegment h.name }

/-- Whether `processHeader` succeeds (no fatal error) on a header. -/
def processOk (m : Matcher) (excludes : List String) (h : Header) : Bool :=
  match processHeader m excludes h with
  | .ok _ => true
  | .error _ => false

/-- The bare-top-directory test of `processHeader`, as a predicate: the
name splits into exactly two components and the second is empty. -/
def isBareTopDir (n : String) : Bool :=
  (splitOnSlash n).length = 2 && (splitOnSlash n).getD 1 "" = ""

/-- The metadata/synthetic entries of the source archive: the
`pax_global_header` pseudo-entry and the bare top-level directory entry. -/
def isMetaEntry (h : Header) : Bool :=
  h.name = "pax_global_header" || isBareTopDir h.name

/-- What the matcher answers on a name, a failure read as no match. -/
def matcherSaysSkip (m : Matcher) (excludes : List String) (n : String) : Bool :=
  match m n excludes with
  | .ok b => b
  | .error _ => false

/-- The entries excluded by the docker-ignore patterns: non-metadata
entries whose post-rename name matches. -/
def isExcludedEntry (m : Matcher) (excludes : List String) (h : Header) : Bool :=
  !isMetaEntry h && matcherSaysSkip m excludes (stripFirstSegment h.name)

/-- The whole background producer (`startStrippingPipe` from its first
line): besides the emitted entries and the terminal error, it records how
often each stream was closed.  `gzOpen` is the outcome of
`gzip.NewReader(t.tarball)`: on failure only `t.pipeWriter` is closed; on
success the entry loop runs and its single `closeFunc` closes the output
tar writer, the pipe writer and the source exactly once on the exit
path. -/
structure SessionResult where
  emitted : List Header
  err : Option String
  outTarCloses : Nat
  outPipeCloses : Nat
  sourceCloses : Nat
deriving DecidableEq, Repr

/-- `tarPrefixStripper.startStrippingPipe` with its close bookkeeping. -/
def runSession (m : Matcher) (excludes : List String) :
    Except String (List Header × Option String) → SessionResult
  | .error e =>
    { emitted := [], err := some e,
      outTarCloses := 0, outPipeCloses := 1, sourceCloses := 0 }
  | .ok (entries, terr) =>
    let r := startStrippingPipe m excludes entries terr
    { emitted := r.emitted, err := r.err,
      outTarCloses := 1, outPipeCloses := 1, sourceCloses := 1 }

/-- The response object returned by the GitHub `GetContents` call, as far
as `parseDockerIgnoreIfExists` inspects it. -/
structure RemoteResponse where
  statusCode : Nat
deriving DecidableEq, Repr

/-- The outcome of `gf.c.Repositories.GetContents`: the error value, the
response (which may be `nil`), and — when the call succeeded — the outcome
of `fc.GetContent()` on the returned file content. -/
structure GetContentsOutcome where
  err : Option String
  resp : Option RemoteResponse
  content : Except String String
deriving DecidableEq, Repr

/-- `GitHubFetcher.parseDockerIgnoreIfExists`, with the remote call's
outcome as data and `dockerignore.ReadAll` as a parameter.  The result is
`none` when the Go code dereferences a `nil` response
(`resp.StatusCode` with `resp == nil`, a run-time panic rather than a
returned error), and `some v` when it returns normally. -/
def parseDockerIgnoreIfExists (readAll : String → Except String (List String))
    (o : GetContentsOutcome) : Option (Except String (List String)) :=
  match o.err with
  | some e =>
    match o.resp with
    | none => none
    | some r =>
      if r.statusCode = 404 then
        some (.ok [])
      else
        some (.error ("error getting .dockerignore: " ++ e))
  | none =>
    match o.content with
    | .error e => some (.error ("error getting content from .dockerignore, " ++ e))
    | .ok c =>
      match readAll c with
      | .error e => some (.error ("error parsing .dockerignore, " ++ e))
      | .ok excludes => some (.ok excludes)

/-- Entry processing as the spec describes it for an empty exclusion set:
identical to `processHeader` except that the docker-ignore check excludes
nothing. -/
def processHeaderNoExclusions (h : Header) : Except String (Bool × Header) :=
  if h.name = "pax_global_header" then
    .ok (true, h)
  else if pathIsAbs h.name then
    .error (absPathError h.name)
  else
    let spath := splitOnSlash h.name
    if spath.length = 2 && spath.getD 1 "" = "" then
      .ok (true, h)
    else
      .ok (false, { h with name := joinWithSlash (spath.drop 1) })

/-- The entry loop under an empty exclusion set as the spec describes it:
no entry is excluded on the pattern basis. -/
def startStrippingPipeNoExclusions :
    List Header → Option String → StripResult
  | [], terr => { emitted := [], err := terr }
  | h :: rest, terr =>
    match processHeaderNoExclusions h with
    | .error e => { emitted := [], err := some e }
    | .ok (true, _) => startStrippingPipeNoExclusions rest terr
    | .ok (false, h2) =>
      let r := startStrippingPipeNoExclusions rest terr
      { emitted := h2 :: r.emitted, err := r.err }

/-! ### Case analysis of `processHeader` -/

theorem processHeader_pax (m : Matcher) (ex : List String) (h : Header)
    (hpax : h.name = "pax_global_header") :
    processHeader m ex h = .ok (true, h) := by
  simp [processHeader, hpax]

theorem pax_not_abs (n : String) (habs : pathIsAbs n = true) :
    n ≠ "pax_global_header" := by
  intro he
  rw [he] at habs
  exact absurd habs (by decide)

theorem processHeader_abs (m : Matcher) (ex : List String) (h : Header)
    (habs : pathIsAbs h.name = true) :
    processHeader m ex h = .error (absPathError h.name) := by
  simp [processHeader, pax_not_abs h.name habs, habs]

theorem processHeader_topdir (m : Matcher) (ex : List String) (h : Header)
    (hpax : h.name ≠ "pax_global_header") (habs : pathIsAbs h.name = false)
    (htop : isBareTopDir h.name = true) :
    processHeader m ex h = .ok (true, h) := by
  simp only [isBareTopDir] at htop
  simp only [processHeader]
  rw [if_neg hpax, if_neg (by simp [habs]), if_pos htop]

theorem processHeader_rename (m : Matcher) (ex : List String) (h : Header)
    (hpax : h.name ≠ "pax_global_header") (habs : pathIsAbs h.name = false)
    (htop : isBareTopDir h.name = false) :
    processHeader m ex h =
      match m (stripFirstSegment h.name) ex with
      | .error _ => .error (matchErrorMsg (stripFirstSegment h.name))
      | .ok b => .ok (b, renameHeader h) := by
  simp only [isBareTopDir] at htop
  simp only [processHeader, stripFirstSegment, renameHeader,
    shouldSkipDockerIgnoredFile]
  rw [if_neg hpax, if_neg (by simp [habs]), if_neg (by rw [htop]; simp)]
  rcases m (joinWithSlash ((splitOnSlash h.name).drop 1)) ex with e | b <;> rfl

theorem processHeader_ok_false (m : Matcher) (ex : List String) (h h2 : Header)
    (hp : processHeader m ex h = .ok (false, h2)) :
    pathIsAbs h.name = false ∧ h2 = renameHeader h := by
  by_cases hpax : h.name = "pax_global_header"
  · rw [processHeader_pax m ex h hpax] at hp
    simp at hp
  · cases habs : pathIsAbs h.name with
    | true => rw [processHeader_abs m ex h habs] at hp; simp at hp
    | false =>
      cases htop : isBareTopDir h.name with
      | true => rw [processHeader_topdir m ex h hpax habs htop] at hp; simp at hp
      | false =>
        rw [processHeader_rename m ex h hpax habs htop] at hp
        rcases hm : m (stripFirstSegment h.name) ex with e | b <;> rw [hm] at hp
        · simp at hp
        · simp at hp
          exact ⟨rfl, hp.2.symm⟩

/-! ### Behavior of the entry loop -/

theorem startStrippingPipe_nil {m : Matcher} {ex : List String}
    {terr : Option String} :
    startStrippingPipe m ex [] terr = { emitted := [], err := terr } := rfl

theorem startStrippingPipe_cons_error {m : Matcher} {ex : List String}
    {h : Header} {rest : List Header} {terr : Option String} {e : String}
    (hp : processHeader m ex h = .error e) :
    startStrippingPipe m ex (h :: rest) terr = { emitted := [], err := some e } := by
  simp [startStrippingPipe, hp]

theorem startStrippingPipe_cons_skip {m : Matcher} {ex : List String}
    {h h2 : Header} {rest : List Header} {terr : Option String}
    (hp : processHeader m ex h = .ok (true, h2)) :
    startStrippingPipe m ex (h :: rest) terr = startStrippingPipe m ex rest terr := by
  simp [startStrippingPipe, hp]

theorem startStrippingPipe_cons_emit {m : Matcher} {ex : List String}
    {h h2 : Header} {rest : List Header} {terr : Option String}
    (hp : processHeader m ex h = .ok (false, h2)) :
    startStrippingPipe m ex (h :: rest) terr =
      { emitted := h2 :: (startStrippingPipe m ex rest terr).emitted,
        err := (startStrippingPipe m ex rest terr).err } := by
  simp [startStrippingPipe, hp]

theorem startStrippingPipe_append {m : Matcher} {ex : List String}
    (pre rest : List Header) (terr : Option String)
    (hpre : ∀ h ∈ pre, processOk m ex h = true) :
    startStrippingPipe m ex (pre ++ rest) terr =
      { emitted := (startStrippingPipe m ex pre none).emitted
          ++ (startStrippingPipe m ex rest terr).emitted,
        err := (startStrippingPipe m ex rest terr).err } := by
  induction pre with
  | nil => simp [startStrippingPipe_nil]
  | cons h pre ih =>
    have hh := hpre h (List.mem_cons_self h pre)
    have hps : ∀ h' ∈ pre, processOk m ex h' = true :=
      fun h' hmem => hpre h' (List.mem_cons_of_mem h hmem)
    rcases hp : processHeader m ex h with e | ⟨b, h2⟩
    · simp [processOk, hp] at hh
    · cases b with
      | false =>
        rw [List.cons_append, startStrippingPipe_cons_emit hp,
          startStrippingPipe_cons_emit hp, ih hps]
        simp
      | true =>
        rw [List.cons_append, startStrippingPipe_cons_skip hp,
          startStrippingPipe_cons_skip hp, ih hps]

theorem startStrippingPipe_emitted_sublist (m : Matcher) (ex : List String)
    (entries : List Header) (terr : Option String) :
    (startStrippingPipe m ex entries terr).emitted.Sublist
      (entries.map renameHeader) := by
  induction entries with
  | nil => simp [startStrippingPipe_nil]
  | cons h rest ih =>
    rcases hp : processHeader m ex h with e | ⟨b, h2⟩
    · rw [startStrippingPipe_cons_error hp]
      exact List.nil_sublist _
    · cases b with
      | false =>
        obtain ⟨-, rfl⟩ := processHeader_ok_false m ex h h2 hp
        rw [startStrippingPipe_cons_emit hp]
        exact List.Sublist.cons₂ (renameHeader h) ih
      | true =>
        rw [startStrippingPipe_cons_skip hp]
        exact ih.cons (renameHeader h)

/-- Under a successful `processHeader`, every entry falls into exactly one
of three classes: metadata/synthetic (skipped as-is), excluded by the
patterns (skipped renamed), or emitted renamed. -/
theorem processHeader_classify {m : Matcher} {ex : List String} {h : Header}
    (hok : processOk m ex h = true) :
    (isMetaEntry h = true ∧ isExcludedEntry m ex h = false ∧
      processHeader m ex h = .ok (true, h)) ∨
    (isMetaEntry h = false ∧ isExcludedEntry m ex h = true ∧
      processHeader m ex h = .ok (true, renameHeader h)) ∨
    (isMetaEntry h = false ∧ isExcludedEntry m ex h = false ∧
      processHeader m ex h = .ok (false, renameHeader h)) := by
  by_cases hpax : h.name = "pax_global_header"
  · have hmeta : isMetaEntry h = true := by simp [isMetaEntry, hpax]
    exact .inl ⟨hmeta, by simp [isExcludedEntry, hmeta], processHeader_pax m ex h hpax⟩
  · cases habs : pathIsAbs h.name with
    | true => simp [processOk, processHeader_abs m ex h habs] at hok
    | false =>
      cases htop : isBareTopDir h.name with
      | true =>
        have hmeta : isMetaEntry h = true := by simp [isMetaEntry, htop]
        exact .inl ⟨hmeta, by simp [isExcludedEntry, hmeta],
          processHeader_topdir m ex h hpax habs htop⟩
      | false =>
        have hmeta : isMetaEntry h = false := by simp [isMetaEntry, hpax, htop]
        rcases hm : m (stripFirstSegment h.name) ex with e | b
        · simp [processOk, processHeader_rename m ex h hpax habs htop, hm] at hok
        · have hexc : isExcludedEntry m ex h = b := by
            simp [isExcludedEntry, hmeta, matcherSaysSkip, hm]
          have hp : processHeader m ex h = .ok (b, renameHeader h) := by
            rw [processHeader_rename m ex h hpax habs htop, hm]
          cases b
          · exact .inr (.inr ⟨hmeta, hexc, hp⟩)
          · exact .inr (.inl ⟨hmeta, hexc, hp⟩)

theorem startStrippingPipe_count_aux {m : Matcher} {ex : List String}
    (entries : List Header) (terr : Option String)
    (hok : ∀ h ∈ entries, processOk m ex h = true) :
    (startStrippingPipe m ex entries terr).emitted.length
      + entries.countP isMetaEntry
      + entries.countP (isExcludedEntry m ex) = entries.length := by
  induction entries with
  | nil => simp [startStrippingPipe_nil]
  | cons h rest ih =>
    have hh := hok h (List.mem_cons_self h rest)
    have hrest : ∀ h' ∈ rest, processOk m ex h' = true :=
      fun h' hmem => hok h' (List.mem_cons_of_mem h hmem)
    have iha := ih hrest
    rcases processHeader_classify hh with ⟨hmeta, hexc, hp⟩ | ⟨hmeta, hexc, hp⟩ |
      ⟨hmeta, hexc, hp⟩
    · rw [startStrippingPipe_cons_skip hp]
      simp [List.countP_cons, hmeta, hexc]
      omega
    · rw [startStrippingPipe_cons_skip hp]
      simp [List.countP_cons, hmeta, hexc]
      omega
    · rw [startStrippingPipe_cons_emit hp]
      simp [List.countP_cons, hmeta, hexc]
      omega

/-- Every emitted header is the renamed form of some source entry whose
original name was not absolute. -/
theorem startStrippingPipe_emitted_origin (m : Matcher) (ex : List String)
    (entries : List Header) (terr : Option String) (h' : Header)
    (hmem : h' ∈ (startStrippingPipe m ex entries terr).emitted) :
    ∃ h ∈ entries, h' = renameHeader h ∧ pathIsAbs h.name = false := by
  induction entries with
  | nil => simp [startStrippingPipe_nil] at hmem
  | cons h0 rest ih =>
    rcases hp : processHeader m ex h0 with e | ⟨b, h2⟩
    · rw [startStrippingPipe_cons_error hp] at hmem
      simp at hmem
    · cases b with
      | true =>
        rw [startStrippingPipe_cons_skip hp] at hmem
        obtain ⟨h, hh, he, ha⟩ := ih hmem
        exact ⟨h, List.mem_cons_of_mem h0 hh, he, ha⟩
      | false =>
        rw [startStrippingPipe_cons_emit hp] at hmem
        simp only [List.mem_cons] at hmem
        rcases hmem with heq | hmem'
        · obtain ⟨ha, hr⟩ := processHeader_ok_false m ex h0 h2 hp
          exact ⟨h0, List.mem_cons_self h0 rest, heq.trans hr, ha⟩
        · obtain ⟨h, hh, he, ha⟩ := ih hmem'
          exact ⟨h, List.mem_cons_of_mem h0 hh, he, ha⟩

/-- If any source entry name is absolute, the loop terminates with an
error. -/
theorem startStrippingPipe_abs_member_err (m : Matcher) (ex : List String)
    (entries : List Header) (terr : Option String) (h : Header)
    (hmem : h ∈ entries) (habs : pathIsAbs h.name = true) :
    (startStrippingPipe m ex entries terr).err.isSome = true := by
  induction entries with
  | nil => cases hmem
  | cons h0 rest ih =>
    rcases hp : processHeader m ex h0 with e | ⟨b, h2⟩
    · rw [startStrippingPipe_cons_error hp]
      rfl
    · rcases List.mem_cons.mp hmem with rfl | hmem'
      · rw [processHeader_abs m ex h habs] at hp
        cases hp
      · cases b with
        | true =>
          rw [startStrippingPipe_cons_skip hp]
          exact ih hmem'
        | false =>
          rw [startStrippingPipe_cons_emit hp]
          exact ih hmem'

/-- With an empty pattern list and a matcher that reports no match on it,
`processHeader` coincides with the spec's pattern-free entry processing. -/
theorem processHeader_empty_excludes (m : Matcher) (h : Header)
    (hm : ∀ n, m n [] = Except.ok false) :
    processHeader m [] h = processHeaderNoExclusions h := by
  by_cases hpax : h.name = "pax_global_header"
  · rw [processHeader_pax m [] h hpax]
    simp [processHeaderNoExclusions, hpax]
  · cases habs : pathIsAbs h.name with
    | true =>
      rw [processHeader_abs m [] h habs]
      simp [processHeaderNoExclusions, hpax, habs]
    | false =>
      cases htop : isBareTopDir h.name with
      | true =>
        rw [processHeader_topdir m [] h hpax habs htop]
        simp only [isBareTopDir] at htop
        simp only [processHeaderNoExclusions]
        rw [if_neg hpax, if_neg (by simp [habs]), if_pos htop]
      | false =>
        rw [processHeader_rename m [] h hpax habs htop, hm (stripFirstSegment h.name)]
        simp only [isBareTopDir] at htop
        simp only [processHeaderNoExclusions, stripFirstSegment, renameHeader]
        rw [if_neg hpax, if_neg (by simp [habs]), if_neg (by rw [htop]; simp)]

/-- With an empty pattern list and a matcher that reports no match on it,
the entry loop coincides with the spec's pattern-free loop. -/
theorem startStrippingPipe_empty_excludes (m : Matcher)
    (hm : ∀ n, m n [] = Except.ok false)
    (entries : List Header) (terr : Option String) :
    startStrippingPipe m [] entries terr
      = startStrippingPipeNoExclusions entries terr := by
  induction entries with
  | nil => rfl
  | cons h rest ih =>
    have hph := processHeader_empty_excludes m h hm
    rcases hp : processHeaderNoExclusions h with e | ⟨b, h2⟩
    · rw [startStrippingPipe_cons_error (hph.trans hp)]
      simp [startStrippingPipeNoExclusions, hp]
    · cases b with
      | true =>
        rw [startStrippingPipe_cons_skip (hph.trans hp)]
        simp [startStrippingPipeNoExclusions, hp, ih]
      | false =>
        rw [startStrippingPipe_cons_emit (hph.trans hp)]
        simp [startStrippingPipeNoExclusions, hp, ih]

example :
    processHeader alwaysFalseMatcher [] ⟨"reponame-abc123/subdir/file.go", [7]⟩
      = .ok (false, ⟨"subdir/file.go", [7]⟩) := by decide

example :
    startStrippingPipe alwaysFalseMatcher []
      [⟨"pax_global_header", []⟩, ⟨"repo-abc/", []⟩, ⟨"repo-abc/a.go", [1]⟩] none
      = { emitted := [⟨"a.go", [1]⟩], err := none } := by decide

example :
    startStrippingPipe alwaysFalseMatcher [] [⟨"a//b", [0]⟩] none
      = { emitted := [⟨"/b", [0]⟩], err := none } := by decide

example :
    startStrippingPipe alwaysFalseMatcher [] [⟨"file.go", [0]⟩] none
      = { emitted := [⟨"", [0]⟩], err := none } := by decide

example :
    startStrippingPipe logSuffixMatcher ["*.log"]
      [⟨"r/a.log", [1]⟩, ⟨"r/b.go", [2]⟩] none
      = { emitted := [⟨"b.go", [2]⟩], err := none } := by decide

/-- A small concrete archive used to instantiate the theorems. -/
def sampleArchive : List Header :=
  [⟨"pax_global_header", []⟩, ⟨"repo-abc/", []⟩, ⟨"repo-abc/x.log", [1]⟩,
   ⟨"repo-abc/src/main.go", [2]⟩]

/-! ### The claims -/

/-- C1: for every entry emitted by the transform, the emitted name equals
the source name with exactly its first slash-delimited path segment
removed. -/
theorem emitted_name_strips_one_segment (m : Matcher) (ex : List String)
    (entries : List Header) (terr : Option String) (h' : Header)
    (hmem : h' ∈ (startStrippingPipe m ex entries terr).emitted) :
    ∃ h ∈ entries, h'.name = stripFirstSegment h.name := by
  obtain ⟨h, hh, he, -⟩ := startStrippingPipe_emitted_origin m ex entries terr h' hmem
  exact ⟨h, hh, by rw [he]; rfl⟩

/-- C1 witness: the source entry `reponame-abc123/subdir/file.go` is
emitted as `subdir/file.go`. -/
theorem emitted_name_strips_one_segment_witness :
    ∃ h ∈ [(⟨"reponame-abc123/subdir/file.go", [7]⟩ : Header)],
      (⟨"subdir/file.go", [7]⟩ : Header).name = stripFirstSegment h.name :=
  emitted_name_strips_one_segment alwaysFalseMatcher []
    [⟨"reponame-abc123/subdir/file.go", [7]⟩] none
    ⟨"subdir/file.go", [7]⟩ (by decide)

/-- C2 counterexample: the source entry `a//b` is not absolute, survives
processing, and is emitted under the absolute name `/b`. -/
theorem emitted_absolute_name_counterexample :
    (startStrippingPipe alwaysFalseMatcher [] [⟨"a//b", [0]⟩] none)
        = { emitted := [⟨"/b", [0]⟩], err := none } ∧
    pathIsAbs "/b" = true := by decide

/-- C2 amended: an absolute source entry name anywhere makes the session
terminate with an error, and every emitted entry comes from a source entry
whose name was not absolute; the emitted post-rename name itself can
nevertheless be absolute (e.g. source `a//b` is emitted as `/b`). -/
theorem absolute_source_aborts (m : Matcher) (ex : List String)
    (entries : List Header) (terr : Option String) :
    (∀ h' ∈ (startStrippingPipe m ex entries terr).emitted,
        ∃ h ∈ entries, h' = renameHeader h ∧ pathIsAbs h.name = false) ∧
    (∀ h ∈ entries, pathIsAbs h.name = true →
        (startStrippingPipe m ex entries terr).err.isSome = true) :=
  ⟨fun h' hmem => startStrippingPipe_emitted_origin m ex entries terr h' hmem,
   fun h hmem habs => startStrippingPipe_abs_member_err m ex entries terr h hmem habs⟩

/-- C2 witness: a session whose source holds an absolute name ends in an
error. -/
theorem absolute_source_aborts_witness :
    (startStrippingPipe alwaysFalseMatcher [] [⟨"/etc/passwd", [1]⟩] none).err.isSome
      = true :=
  (absolute_source_aborts alwaysFalseMatcher [] [⟨"/etc/passwd", [1]⟩] none).2
    ⟨"/etc/passwd", [1]⟩ (by decide) (by decide)

/-- C3: for an archive whose entries all process without a fatal error,
the output holds exactly N − M − E entries: N source entries, M
metadata/synthetic entries, E pattern-excluded entries. -/
theorem output_entry_count (m : Matcher) (ex : List String)
    (entries : List Header) (terr : Option String)
    (hok : ∀ h ∈ entries, processOk m ex h = true) :
    (startStrippingPipe m ex entries terr).emitted.length =
      entries.length - entries.countP isMetaEntry
        - entries.countP (isExcludedEntry m ex) := by
  have := startStrippingPipe_count_aux entries terr hok
  omega

/-- C3 witness: on a four-entry archive with one metadata header, one bare
top directory and one `.log` exclusion, the output holds one entry. -/
theorem output_entry_count_witness :
    (startStrippingPipe logSuffixMatcher ["*.log"] sampleArchive none).emitted.length =
      sampleArchive.length - sampleArchive.countP isMetaEntry
        - sampleArchive.countP (isExcludedEntry logSuffixMatcher ["*.log"]) :=
  output_entry_count logSuffixMatcher ["*.log"] sampleArchive none (by decide)

/-- C4: an absolute-path source entry fails the whole session with the
format error; entries emitted before it remain, and nothing at or after it
is emitted. -/
theorem absolute_path_fails_session (m : Matcher) (ex : List String)
    (pre : List Header) (habs : Header) (post : List Header)
    (terr : Option String)
    (hpre : ∀ h ∈ pre, processOk m ex h = true)
    (hn : pathIsAbs habs.name = true) :
    startStrippingPipe m ex (pre ++ habs :: post) terr =
      { emitted := (startStrippingPipe m ex pre none).emitted,
        err := some (absPathError habs.name) } := by
  rw [startStrippingPipe_append pre (habs :: post) terr hpre,
    startStrippingPipe_cons_error (processHeader_abs m ex habs hn)]
  simp

/-- C4 witness: an absolute name in the middle of the stream keeps the
earlier output and stops with the format error, dropping later entries. -/
theorem absolute_path_fails_session_witness :
    startStrippingPipe alwaysFalseMatcher []
        ([⟨"repo-abc/a.go", [1]⟩] ++ ⟨"/bad", [2]⟩ :: [⟨"repo-abc/b.go", [3]⟩]) none =
      { emitted := (startStrippingPipe alwaysFalseMatcher [] [⟨"repo-abc/a.go", [1]⟩] none).emitted,
        err := some (absPathError "/bad") } :=
  absolute_path_fails_session alwaysFalseMatcher [] [⟨"repo-abc/a.go", [1]⟩]
    ⟨"/bad", [2]⟩ [⟨"repo-abc/b.go", [3]⟩] none (by decide) (by decide)

/-- C5: an entry whose post-rename name matches the exclusion patterns is
omitted entirely — neither header nor payload — and the session continues
with the rest; an entry whose post-rename name does not match is emitted,
renamed header and payload. -/
theorem excluded_entries_omitted (m : Matcher) (ex : List String)
    (h : Header) (rest : List Header) (terr : Option String)
    (hpax : h.name ≠ "pax_global_header")
    (habs : pathIsAbs h.name = false)
    (htop : isBareTopDir h.name = false) :
    (m (stripFirstSegment h.name) ex = .ok true →
      startStrippingPipe m ex (h :: rest) terr
        = startStrippingPipe m ex rest terr) ∧
    (m (stripFirstSegment h.name) ex = .ok false →
      startStrippingPipe m ex (h :: rest) terr =
        { emitted := renameHeader h :: (startStrippingPipe m ex rest terr).emitted,
          err := (startStrippingPipe m ex rest terr).err }) := by
  refine ⟨fun hm => ?_, fun hm => ?_⟩
  · exact startStrippingPipe_cons_skip
      (by rw [processHeader_rename m ex h hpax habs htop, hm])
  · exact startStrippingPipe_cons_emit
      (by rw [processHeader_rename m ex h hpax habs htop, hm])

/-- C5 witness: under the `*.log` patterns, a `.log` entry is dropped and
the session continues with the remaining entries. -/
theorem excluded_entries_omitted_witness :
    startStrippingPipe logSuffixMatcher ["*.log"]
        [⟨"repo-abc/x.log", [9]⟩, ⟨"repo-abc/b.go", [3]⟩] none =
      startStrippingPipe logSuffixMatcher ["*.log"] [⟨"repo-abc/b.go", [3]⟩] none :=
  (excluded_entries_omitted logSuffixMatcher ["*.log"] ⟨"repo-abc/x.log", [9]⟩
    [⟨"repo-abc/b.go", [3]⟩] none (by decide) (by decide) (by decide)).1 (by decide)

/-- C6 counterexample: `processHeader` renames the delimiter-less name
`file.go` to the empty string; the name does not stay as-is. -/
theorem no_delimiter_counterexample :
    processHeader alwaysFalseMatcher [] ⟨"file.go", [0]⟩
        = Except.ok (false, ⟨"", [0]⟩) ∧
    (⟨"", [0]⟩ : Header) ≠ ⟨"file.go", [0]⟩ := by decide

/-- C6 amended: an entry name without any slash (not the pseudo-metadata
header, not absolute) is renamed to the empty string — its single segment
removed by the empty-slice join — and this is not an error. -/
theorem no_delimiter_renamed_to_empty (m : Matcher) (ex : List String)
    (h : Header) (b : Bool)
    (hsplit : splitOnSlash h.name = [h.name])
    (hpax : h.name ≠ "pax_global_header")
    (habs : pathIsAbs h.name = false)
    (hm : m "" ex = Except.ok b) :
    processHeader m ex h = Except.ok (b, { h with name := "" }) := by
  have htop : isBareTopDir h.name = false := by
    simp [isBareTopDir, hsplit]
  have hstrip : stripFirstSegment h.name = "" := by
    simp [stripFirstSegment, hsplit, joinWithSlash]
  rw [processHeader_rename m ex h hpax habs htop, hstrip, hm]
  simp [renameHeader, hstrip]

/-- C6 witness: `file.go` survives processing, renamed to the empty
string. -/
theorem no_delimiter_renamed_to_empty_witness :
    processHeader alwaysFalseMatcher [] ⟨"file.go", [0]⟩
        = Except.ok (false, ⟨"", [0]⟩) :=
  no_delimiter_renamed_to_empty alwaysFalseMatcher [] ⟨"file.go", [0]⟩ false
    (by decide) (by decide) (by decide) rfl

/-- C7: the emitted sequence is an order-preserving sub-sequence of the
renamed source sequence — no reordering, duplication or insertion. -/
theorem output_order_preserving_subsequence (m : Matcher) (ex : List String)
    (entries : List Header) (terr : Option String) :
    (startStrippingPipe m ex entries terr).emitted.Sublist
      (entries.map renameHeader) :=
  startStrippingPipe_emitted_sublist m ex entries terr

/-- C8 counterexample: when opening the compressed source fails, the
producer closes only the pipe writer; the source stream is never
closed. -/
theorem close_discipline_counterexample :
    (runSession alwaysFalseMatcher []
      (Except.error "gzip: invalid header")).sourceCloses ≠ 1 := by
  decide

/-- C8 amended: once the compressed source opens successfully, every exit
path of the producer closes the output tar writer, the output pipe and the
source exactly once via `closeFunc`; when opening fails, only the output
pipe is closed and the source stream stays open. -/
theorem close_discipline (m : Matcher) (ex : List String)
    (entries : List Header) (terr : Option String) (e : String) :
    (runSession m ex (.ok (entries, terr))).sourceCloses = 1 ∧
    (runSession m ex (.ok (entries, terr))).outPipeCloses = 1 ∧
    (runSession m ex (.ok (entries, terr))).outTarCloses = 1 ∧
    (runSession m ex (.error e)).outPipeCloses = 1 ∧
    (runSession m ex (.error e)).sourceCloses = 0 ∧
    (runSession m ex (.error e)).outTarCloses = 0 :=
  ⟨rfl, rfl, rfl, rfl, rfl, rfl⟩

/-- C9: a 404 from the ignore-file retrieval is tolerated, yields the
empty exclusion set, and the transform under the empty set coincides with
the spec's pattern-free transform: nothing is excluded on that basis. -/
theorem dockerignore_absent_tolerated
    (readAll : String → Except String (List String)) (m : Matcher)
    (o : GetContentsOutcome) (e : String)
    (entries : List Header) (terr : Option String)
    (herr : o.err = some e) (hresp : o.resp = some ⟨404⟩)
    (hm : ∀ n, m n [] = Except.ok false) :
    parseDockerIgnoreIfExists readAll o = some (Except.ok []) ∧
    startStrippingPipe m [] entries terr
      = startStrippingPipeNoExclusions entries terr := by
  refine ⟨?_, startStrippingPipe_empty_excludes m hm entries terr⟩
  simp [parseDockerIgnoreIfExists, herr, hresp]

/-- C9 witness: a concrete 404 outcome yields the empty pattern set and
the pattern-free transform on a concrete archive. -/
theorem dockerignore_absent_tolerated_witness :
    parseDockerIgnoreIfExists (fun _ => Except.ok [])
        ⟨some "404 not found", some ⟨404⟩, Except.ok ""⟩ = some (Except.ok []) ∧
    startStrippingPipe alwaysFalseMatcher [] [⟨"repo-abc/a.go", [1]⟩] none
        = startStrippingPipeNoExclusions [⟨"repo-abc/a.go", [1]⟩] none :=
  dockerignore_absent_tolerated (fun _ => Except.ok []) alwaysFalseMatcher
    ⟨some "404 not found", some ⟨404⟩, Except.ok ""⟩ "404 not found"
    [⟨"repo-abc/a.go", [1]⟩] none rfl rfl (fun _ => rfl)

/-- C10: when the remote get-file-content call errors, the 404-tolerance
branch dereferences the response: with a non-nil response the function
returns some value, and with a nil response it returns no descriptive
error value at all (the status-code dereference is a nil-pointer fault,
modelled as `none`). -/
theorem dockerignore_nil_response_handling
    (readAll : String → Except String (List String))
    (o : GetContentsOutcome) (e : String) (herr : o.err = some e) :
    (∀ r, o.resp = some r → ∃ v, parseDockerIgnoreIfExists readAll o = some v) ∧
    (o.resp = none → parseDockerIgnoreIfExists readAll o = none) := by
  constructor
  · intro r hr
    by_cases h404 : r.statusCode = 404
    · exact ⟨Except.ok [], by simp [parseDockerIgnoreIfExists, herr, hr, h404]⟩
    · exact ⟨Except.error ("error getting .dockerignore: " ++ e),
        by simp [parseDockerIgnoreIfExists, herr, hr, h404]⟩
  · intro hr
    simp [parseDockerIgnoreIfExists, herr, hr]

/-- C10 witness: an errored call with a nil response produces no returned
value at all. -/
theorem dockerignore_nil_response_handling_witness :
    parseDockerIgnoreIfExists (fun _ => Except.ok [])
        ⟨some "boom", none, Except.ok ""⟩ = none :=
  (dockerignore_nil_response_handling (fun _ => Except.ok [])
    ⟨some "boom", none, Except.ok ""⟩ "boom" rfl).2 rfl

end GithubFetch
